import Mathlib

/-!
Verification of the spreadsheet ingestion and normalization pipeline of the
antenne-database server (`src/server.js`).

The definitions below are a shallow embedding of the JavaScript source:
pure helper functions become Lean functions, the PostgreSQL tables become
association lists / lists of records, and the per-row upload loops become
folds over a row list threading the store and the counters.  Machine floats
are modelled by `Rat` (all values appearing in the pipeline are short
decimals), JS `Date` values by a civil calendar date triple.
-/

namespace AntenneDB

/-! ### Civil date arithmetic

JS `Date` values produced by the pipeline are always midnights, so a date is
modelled by its calendar triple.  Conversion between day counts since the
Unix epoch 1970-01-01 and calendar triples uses the standard civil-calendar
algorithms (Hinnant), written with floor division so they hold on all of `Int`.
-/

structure CivilDate where
  year : Int
  month : Int
  day : Int
deriving DecidableEq, Repr

/-- Day count since 1970-01-01 of a (valid) civil date. -/
def daysFromCivil (y m d : Int) : Int :=
  let y' := y - (if m ≤ 2 then 1 else 0)
  let era := Int.fdiv y' 400
  let yoe := y' - era * 400
  let mp := Int.fmod (m + 9) 12
  let doy := Int.fdiv (153 * mp + 2) 5 + d - 1
  let doe := yoe * 365 + Int.fdiv yoe 4 - Int.fdiv yoe 100 + doy
  era * 146097 + doe - 719468

/-- Civil date of a day count since 1970-01-01. -/
def civilFromDays (z0 : Int) : CivilDate :=
  let z := z0 + 719468
  let era := Int.fdiv z 146097
  let doe := z - era * 146097
  let yoe := Int.fdiv (doe - Int.fdiv doe 1460 + Int.fdiv doe 36524 - Int.fdiv doe 146096) 365
  let y := yoe + era * 400
  let doy := doe - (365 * yoe + Int.fdiv yoe 4 - Int.fdiv yoe 100)
  let mp := Int.fdiv (5 * doy + 2) 153
  let d := doy - Int.fdiv (153 * mp + 2) 5 + 1
  let m := mp + (if mp < 10 then 3 else -9)
  ⟨y + (if m ≤ 2 then 1 else 0), m, d⟩

def isLeapYear (y : Int) : Bool :=
  Int.emod y 4 = 0 && (Int.emod y 100 ≠ 0 || Int.emod y 400 = 0)

def daysInMonth (y m : Int) : Int :=
  if m = 2 then (if isLeapYear y then 29 else 28)
  else if m = 4 || m = 6 || m = 9 || m = 11 then 30
  else 31

/-- The date denoted by `new Date(y, m - 1, d)` in JS: the month (1-based
here) and day may be out of range and overflow into adjacent months/years. -/
def jsMakeDate (y m d : Int) : CivilDate :=
  let mz := m - 1
  let y' := y + Int.fdiv mz 12
  let m' := Int.fmod mz 12 + 1
  civilFromDays (daysFromCivil y' m' 1 + (d - 1))

/-! ### JS string and number helpers -/

def isWS (c : Char) : Bool := c.isWhitespace

/-- Model of `String.prototype.trim`. -/
def jsTrim (s : String) : String :=
  ⟨((s.toList.dropWhile isWS).reverse.dropWhile isWS).reverse⟩

def digitVal (c : Char) : Nat := c.toNat - 48

def natOfDigits (l : List Char) : Nat :=
  l.foldl (fun a c => a * 10 + digitVal c) 0

/-- `parseInt(s, 10)` on an all-digit string. -/
def parseIntDigits (s : String) : Int :=
  (natOfDigits s.toList : Int)

/-- Magnitude part of JS `parseFloat`: the longest `digits [. digits]`
prefix of the sign-stripped input; `none` models `NaN`. -/
def jsParseFloatMag (l1 : List Char) : Option Rat :=
  let ip := l1.takeWhile Char.isDigit
  let rest := l1.dropWhile Char.isDigit
  let fp := if rest.head? = some '.' then rest.tail.takeWhile Char.isDigit else []
  if ip.isEmpty && fp.isEmpty then none
  else some (mkRat (natOfDigits ip * 10 ^ fp.length + natOfDigits fp) (10 ^ fp.length))

/-- Model of JS `parseFloat`: skip leading whitespace, optional sign, then
the longest `digits [. digits]` prefix; `none` models `NaN`. -/
def jsParseFloat (s : String) : Option Rat :=
  let l := s.toList.dropWhile isWS
  let neg := l.head? = some '-'
  let l1 := if l.head? = some '-' || l.head? = some '+' then l.tail else l
  (jsParseFloatMag l1).map (fun m => if neg then -m else m)

/-- Model of JS `parseInt` (base 10): skip leading whitespace, optional
sign, longest digit prefix; `none` models `NaN`. -/
def jsParseInt (s : String) : Option Int :=
  let l := s.toList.dropWhile isWS
  let neg := l.head? = some '-'
  let l1 := if l.head? = some '-' || l.head? = some '+' then l.tail else l
  let ip := l1.takeWhile Char.isDigit
  if ip.isEmpty then none
  else some ((if neg then -1 else 1) * (natOfDigits ip : Int))

/-- Split a character list at every occurrence of `sep` (the model of the
JS `String.prototype.split` with a one-character separator). -/
def splitOnChar (sep : Char) : List Char → List (List Char)
  | [] => [[]]
  | c :: rest =>
    match splitOnChar sep rest with
    | [] => if c = sep then [[], []] else [[c]]
    | g :: gs => if c = sep then [] :: g :: gs else (c :: g) :: gs

def strSplitOn (sep : Char) (s : String) : List String :=
  (splitOnChar sep s.toList).map (fun l => ⟨l⟩)

/-- Remove every occurrence of characters satisfying `p` — the model of a
`String.replace(/[…]/g, '')` character-class deletion. -/
def stripChars (p : Char → Bool) (s : String) : String :=
  ⟨s.toList.filter (fun c => !p c)⟩

/-- Model of `.replace(/GBP/gi, '')`: delete each (case-insensitive,
left-to-right, non-overlapping) occurrence of the three-letter sequence. -/
def stripGBPList : List Char → List Char
  | c1 :: c2 :: c3 :: rest =>
    if c1.toLower = 'g' && c2.toLower = 'b' && c3.toLower = 'p' then
      stripGBPList rest
    else
      c1 :: stripGBPList (c2 :: c3 :: rest)
  | l => l

def stripGBP (s : String) : String := ⟨stripGBPList s.toList⟩

/-- Model of the global hyphen deletion `.replace(hyphen, '')` with the `g`
flag, as used on SKU and ISBN values. -/
def stripHyphens (s : String) : String := stripChars (· = '-') s

/-! ### The date normalizer `parseExcelDate` (src/server.js:537-589)

A JS value reaching `parseExcelDate` is a number (spreadsheet serial), a
string, a `Date`, or absent.  The generic `new Date(string)` call of the
engine (V8) is modelled by `jsDateParse` for the two string shapes the
pipeline meets: an ISO `YYYY-MM-DD` string (valid calendar dates only) and
a slash `M/D/YYYY` string, which V8's legacy parser reads month-first with
month 1..12 and day 1..31 (overflow days roll into the next month).
-/

inductive JSVal where
  | num (n : Int)
  | str (s : String)
  | date (d : CivilDate)
  | undef
deriving DecidableEq, Repr

def allDigits (s : String) : Bool := s.toList.all Char.isDigit

/-- Shape test for the regex `^\d{1,2}\/\d{1,2}\/\d{4}$`. -/
def matchSlashDate (s : String) : Bool :=
  match strSplitOn '/' s with
  | [a, b, c] =>
    decide (1 ≤ a.length) && decide (a.length ≤ 2) && allDigits a &&
    decide (1 ≤ b.length) && decide (b.length ≤ 2) && allDigits b &&
    decide (c.length = 4) && allDigits c
  | _ => false

/-- Model of V8's `new Date(string)` on the string shapes relevant to this
pipeline; `none` models an Invalid Date. -/
def jsDateParse (s : String) : Option CivilDate :=
  match strSplitOn '-' s with
  | [y, m, d] =>
    if y.length = 4 && m.length = 2 && d.length = 2 &&
        allDigits y && allDigits m && allDigits d then
      let yi := parseIntDigits y
      let mi := parseIntDigits m
      let di := parseIntDigits d
      if 1 ≤ mi && mi ≤ 12 && 1 ≤ di && di ≤ daysInMonth yi mi then
        some ⟨yi, mi, di⟩
      else none
    else
      if matchSlashDate s then
        match strSplitOn '/' s with
        | [a, b, c] =>
          let mi := parseIntDigits a
          let di := parseIntDigits b
          if 1 ≤ mi && mi ≤ 12 && 1 ≤ di && di ≤ 31 then
            some (jsMakeDate (parseIntDigits c) mi di)
          else none
        | _ => none
      else none
  | _ =>
    if matchSlashDate s then
      match strSplitOn '/' s with
      | [a, b, c] =>
        let mi := parseIntDigits a
        let di := parseIntDigits b
        if 1 ≤ mi && mi ≤ 12 && 1 ≤ di && di ≤ 31 then
          some (jsMakeDate (parseIntDigits c) mi di)
        else none
      | _ => none
    else none

/-- Largest absolute millisecond timestamp a JS `Date` can hold. -/
def jsMaxMs : Nat := 8640000000000000

/-- Shallow embedding of `parseExcelDate` (src/server.js:537-589).  The
falsy guard `if (!value) return null` sends `0`, the empty string and an
absent value to `null`.  A numeric value is decoded via the fixed 25569-day
epoch offset at 86400 s/day.  A string is first handed to the generic
`new Date(string)` parse; only when that yields an Invalid Date does the
explicit day-first `DD/MM/YYYY` extraction (via `new Date(y, m-1, d)`)
run, and after it the `YYYY-MM-DD` branch repeats the already-failed
generic parse. -/
def parseExcelDate : JSVal → Option CivilDate
  | .undef => none
  | .date d => some d
  | .num n =>
    if n = 0 then none
    else
      let ms := (n - 25569) * 86400 * 1000
      if ms.natAbs ≤ jsMaxMs then some (civilFromDays (Int.fdiv ms 86400000))
      else none
  | .str s =>
    if s = "" then none
    else
      let t := jsTrim s
      match jsDateParse t with
      | some d => some d
      | none =>
        if matchSlashDate t then
          match strSplitOn '/' t with
          | [ds, ms', ys] =>
            some (jsMakeDate (parseIntDigits ys) (parseIntDigits ms') (parseIntDigits ds))
          | _ => none
        else
          -- the `YYYY-MM-DD` branch re-runs the generic parse, which has
          -- already returned an Invalid Date here, so it cannot succeed
          none

/-! ### Rows and the column resolver

A spreadsheet row produced by `sheet_to_json` is a JS object mapping column
labels to cell values; the cells the pipeline reads are strings.  The field
lookup in both upload handlers is a JS `||` chain
`row['A'] || row['B'] || … || ''`: it yields the first alias whose value is
truthy (a present, non-empty string), since both `undefined` and `''` are
falsy.
-/

abbrev Row : Type := List (String × String)

def rowGet (row : Row) (k : String) : Option String :=
  (List.find? (fun p => p.1 = k) row).map (fun p => p.2)

/-- The `row['A'] || row['B'] || … || ''` alias chain. -/
def resolveAliases (row : Row) : List String → String
  | [] => ""
  | a :: rest =>
    match rowGet row a with
    | some v => if v = "" then resolveAliases row rest else v
    | none => resolveAliases row rest

/-- The `row['A'] || row['B'] || …` alias chain with no string default
(used for the Gazelle date cell): `none` models a falsy final value. -/
def resolveAliasesOpt (row : Row) : List String → Option String
  | [] => none
  | a :: rest =>
    match rowGet row a with
    | some v => if v = "" then resolveAliasesOpt row rest else some v
    | none => resolveAliasesOpt row rest

/-! ### Booksonix upload (src/server.js:376-479)

The natural key is the SKU (hyphen-stripped, trimmed).  Persistence is an
`INSERT … ON CONFLICT (sku) DO UPDATE` against `booksonix_records`, modelled
as an association list keyed by sku.  The conflict update sets
`isbn = COALESCE(NULLIF(EXCLUDED.isbn, ''), old.isbn)` and overwrites
`title`, `publisher` and `price` unconditionally; `author` and `quantity`
are not in the update list.
-/

def bSkuAliases : List String :=
  ["SKU", "sku", "Sku", "Product SKU", "Product Code", "Item Code", "Code"]

def bIsbnAliases : List String := ["ISBN-13", "ISBN13", "isbn-13", "ISBN", "EAN"]

def bTitleAliases : List String := ["Title", "TITLE", "Product Title"]

def bPublisherAliases : List String := ["Publishers", "Publisher", "PUBLISHER"]

def bPriceAliases : List String := ["Prices", "Price", "PRICE", "RRP"]

/-- The Booksonix price cleaning chain:
`.replace(GBP, '').replace(pound, '').replace(commas, '')` then deletion of
every character other than a digit or a dot, then `.trim()`. -/
def bCleanPrice (s : String) : String :=
  jsTrim (stripChars (fun c => !(c.isDigit || c = '.'))
    (stripChars (· = ',') (stripChars (· = '£') (stripGBP s))))

/-- `price = parseFloat(cleanPrice) || 0`. -/
def bPriceOf (s : String) : Rat :=
  if s = "" then 0 else (jsParseFloat (bCleanPrice s)).getD 0

/-- The normalized fields the Booksonix handler extracts from one row. -/
structure BFields where
  sku : String
  isbn : String
  title : String
  publisher : String
  price : Rat
deriving DecidableEq, Repr

def bRowFields (row : Row) : BFields :=
  let sku0 := resolveAliases row bSkuAliases
  let sku := if sku0 = "" then sku0 else jsTrim (stripHyphens sku0)
  let isbn0 := resolveAliases row bIsbnAliases
  let isbn := if isbn0 = "" then isbn0 else jsTrim (stripHyphens isbn0)
  let title := resolveAliases row bTitleAliases
  let publisher := resolveAliases row bPublisherAliases
  let price := bPriceOf (resolveAliases row bPriceAliases)
  ⟨sku, isbn, title, publisher, price⟩

/-- A stored `booksonix_records` row (the columns the upload writes). -/
structure BRec where
  isbn : Option String
  title : String
  author : String
  publisher : String
  price : Rat
  quantity : Int
deriving DecidableEq, Repr

abbrev BDb : Type := List (String × BRec)

def dbLookup (db : BDb) (k : String) : Option BRec :=
  (List.find? (fun p => p.1 = k) db).map (fun p => p.2)

/-- The `isbn || null` insert parameter. -/
def toNullable (s : String) : Option String := if s = "" then none else some s

/-- Effect of one conflicting-or-fresh row on the stored record for its key:
`none` is the fresh insert, `some e` the `ON CONFLICT (sku) DO UPDATE`. -/
def upsertRec (old : Option BRec) (f : BFields) : BRec :=
  match old with
  | none => ⟨toNullable f.isbn, f.title, "", f.publisher, f.price, 0⟩
  | some e =>
    ⟨match toNullable f.isbn with
      | some s => some s
      | none => e.isbn,
     f.title, e.author, f.publisher, f.price, e.quantity⟩

/-- `INSERT … ON CONFLICT (sku) DO UPDATE … RETURNING (xmax = 0) AS inserted`:
returns the new store and whether the row was freshly inserted. -/
def dbUpsert (db : BDb) (sku : String) (f : BFields) : BDb × Bool :=
  match dbLookup db sku with
  | none => (db ++ [(sku, upsertRec none f)], true)
  | some _ =>
    (db.map (fun p => if p.1 = sku then (p.1, upsertRec (some p.2) f) else p), false)

structure BCounts where
  newRecords : Nat
  duplicates : Nat
  errors : Nat
  skippedNoSku : Nat
deriving DecidableEq, Repr

/-- One iteration of the Booksonix row loop: a row whose cleaned sku is
empty increments `skippedNoSku` and `errors` and persists nothing;
otherwise the upsert runs and `inserted` selects the counter. -/
def bStep (st : BDb × BCounts) (row : Row) : BDb × BCounts :=
  let f := bRowFields row
  if f.sku = "" then
    (st.1, { st.2 with skippedNoSku := st.2.skippedNoSku + 1, errors := st.2.errors + 1 })
  else
    let (db', inserted) := dbUpsert st.1 f.sku f
    if inserted then (db', { st.2 with newRecords := st.2.newRecords + 1 })
    else (db', { st.2 with duplicates := st.2.duplicates + 1 })

def bRun (db : BDb) (rows : List Row) : BDb × BCounts :=
  rows.foldl bStep (db, ⟨0, 0, 0, 0⟩)

/-- The fields of the JSON response of the Booksonix upload: the skipped
count is not among them. -/
structure BResp where
  newRecords : Nat
  duplicates : Nat
  errors : Nat
deriving DecidableEq, Repr

def bUploadResp (db : BDb) (rows : List Row) : BResp :=
  let c := (bRun db rows).2
  ⟨c.newRecords, c.duplicates, c.errors⟩

/-! ### Gazelle upload (src/server.js:592-846)

`gazelle_sales` is created by `initGazelleTable` (src/server.js:117-175)
without any uniqueness constraint, and the legacy composite constraint
`gazelle_sales_order_ref_isbn13_customer_name_key` is dropped at startup if
present; the store is a plain list and an insert appends.  The handler
validates `order_ref` and `customer_name`, then runs a plain `INSERT`; in
its catch branch a duplicate-key failure (error code 23505) would count as
an update and anything else as an error.
-/

def gOrderRefAliases : List String :=
  ["Order Ref", "OrderRef", "order_ref", "Order Reference", "Order No", "Order Number"]

def gCustomerAliases : List String :=
  ["Customer Name", "CustomerName", "customer_name", "Customer", "Retailer Name"]

def gCityAliases : List String := ["City", "city", "Town"]

def gCountryAliases : List String := ["Country", "country", "Country Code"]

def gTitleAliases : List String := ["Title", "title", "Book Title", "Product Title"]

def gIsbnAliases : List String := ["ISBN-13", "ISBN13", "isbn13", "ISBN", "EAN"]

def gPublisherAliases : List String := ["Publishers", "Publisher", "publisher"]

def gFormatAliases : List String := ["Format", "format", "Book Format"]

def gQuantityAliases : List String := ["Quantity", "quantity", "Qty"]

def gPriceAliases : List String := ["Unit Price", "unit price", "Price"]

def gDiscountAliases : List String := ["Discount %", "Discount", "discount"]

def gDateAliases : List String := ["Order Date", "OrderDate", "order_date", "Date"]

/-- `parseInt(qv.replace(non-digit-non-minus, '')) || 0`. -/
def gQuantityOf (s : String) : Int :=
  if s = "" then 0
  else (jsParseInt (stripChars (fun c => !(c.isDigit || c = '-')) s)).getD 0

/-- `parseFloat(pv.replace(currency glyphs, '').replace(commas, '').trim()) || 0`;
note that a leading minus sign survives the cleaning. -/
def gUnitPriceOf (s : String) : Rat :=
  if s = "" then 0
  else
    (jsParseFloat (jsTrim (stripChars (· = ',')
      (stripChars (fun c => c = '£' || c = '$' || c = '€') s)))).getD 0

/-- `parseFloat(dv.replace(percent, '')) || 0`. -/
def gDiscountOf (s : String) : Rat :=
  if s = "" then 0 else (jsParseFloat (stripChars (· = '%') s)).getD 0

/-- A stored `gazelle_sales` row (the columns the upload writes). -/
structure GRec where
  order_ref : String
  order_date : Option CivilDate
  customer_name : String
  city : String
  country : String
  title : String
  isbn13 : String
  quantity : Int
  unit_price : Rat
  discount : Rat
  publisher : String
  gformat : String
deriving DecidableEq, Repr

/-- The record the Gazelle handler builds from one raw row. -/
def gRowRec (row : Row) : GRec :=
  { order_ref := jsTrim (resolveAliases row gOrderRefAliases)
    order_date :=
      match resolveAliasesOpt row gDateAliases with
      | some s => parseExcelDate (.str s)
      | none => none
    customer_name := jsTrim (resolveAliases row gCustomerAliases)
    city := jsTrim (resolveAliases row gCityAliases)
    country := jsTrim (resolveAliases row gCountryAliases)
    title := jsTrim (resolveAliases row gTitleAliases)
    isbn13 := jsTrim (stripHyphens (resolveAliases row gIsbnAliases))
    quantity := gQuantityOf (resolveAliases row gQuantityAliases)
    unit_price := gUnitPriceOf (resolveAliases row gPriceAliases)
    discount := gDiscountOf (resolveAliases row gDiscountAliases)
    publisher := jsTrim (resolveAliases row gPublisherAliases)
    gformat := jsTrim (resolveAliases row gFormatAliases) }

abbrev GDb : Type := List GRec

/-- The uniqueness constraints of `gazelle_sales` after `initGazelleTable`
ran: the table is created with none, and the legacy composite constraint on
(order_ref, isbn13, customer_name) is dropped if it existed. -/
def gazelleConstraints : List (GRec → GRec → Bool) := []

/-- A plain `INSERT INTO gazelle_sales`: it fails with the duplicate-key
error 23505 exactly when some uniqueness constraint of the table matches an
existing row. -/
def gInsert (db : GDb) (r : GRec) : Except String GDb :=
  if gazelleConstraints.any (fun eq => db.any (fun r' => eq r r')) then
    .error "23505"
  else
    .ok (db ++ [r])

structure GCounts where
  newRecords : Nat
  updatedRecords : Nat
  errors : Nat
  skippedRows : Nat
deriving DecidableEq, Repr

/-- One iteration of the Gazelle row loop: rows missing `order_ref` or
`customer_name` are skipped; otherwise the insert runs, a 23505 failure
counting as a duplicate and any other failure as an error. -/
def gStep (st : GDb × GCounts) (row : Row) : GDb × GCounts :=
  let r := gRowRec row
  if r.order_ref = "" || r.customer_name = "" then
    (st.1, { st.2 with skippedRows := st.2.skippedRows + 1 })
  else
    match gInsert st.1 r with
    | .ok db' => (db', { st.2 with newRecords := st.2.newRecords + 1 })
    | .error e =>
      if e = "23505" then
        (st.1, { st.2 with updatedRecords := st.2.updatedRecords + 1 })
      else
        (st.1, { st.2 with errors := st.2.errors + 1 })

def gRun (db : GDb) (rows : List Row) : GDb × GCounts :=
  rows.foldl gStep (db, ⟨0, 0, 0, 0⟩)

/-- Whether a Gazelle row passes the essential-field validation. -/
def gQualifies (row : Row) : Bool :=
  !((gRowRec row).order_ref = "" || (gRowRec row).customer_name = "")

/-! ### Upload handlers and transient-file cleanup

Both upload routes wrap workbook reading and the row loop in a `try` whose
tail calls `fs.unlinkSync(req.file.path)` before responding, and whose
`catch` deletes the file (guarded by `fs.existsSync`) before responding
with the error.  The handlers are modelled as functions of the workbook
read outcome that thread the existence of the transient file. -/

/-- `fs.unlinkSync`: afterwards the file does not exist. -/
def unlinkSync (_fileExists : Bool) : Bool := false

/-- The Booksonix upload route: returns the final store, the response
(`none` for the 500 error response of the catch branch), and whether the
transient uploaded file still exists when the request completes. -/
def bHandler (read : Except String (List Row)) (db : BDb) :
    (BDb × Option BResp) × Bool :=
  let fileExists := true
  match read with
  | .ok rows =>
    let out := bRun db rows
    let fileExists1 := unlinkSync fileExists
    ((out.1, some ⟨out.2.newRecords, out.2.duplicates, out.2.errors⟩), fileExists1)
  | .error _ =>
    let fileExists1 := if fileExists then unlinkSync fileExists else fileExists
    ((db, none), fileExists1)

/-- The Gazelle upload route, analogously. -/
def gHandler (read : Except String (List Row)) (db : GDb) :
    (GDb × Option GCounts) × Bool :=
  let fileExists := true
  match read with
  | .ok rows =>
    let out := gRun db rows
    let fileExists1 := unlinkSync fileExists
    ((out.1, some out.2), fileExists1)
  | .error _ =>
    let fileExists1 := if fileExists then unlinkSync fileExists else fileExists
    ((db, none), fileExists1)

/-! ### Derived notions used to state and prove the claims -/

/-- Whether a Booksonix row carries a natural key (non-empty cleaned sku). -/
def bKeyed (row : Row) : Bool := (bRowFields row).sku != ""

def bKeyedCount (rows : List Row) : Nat := (rows.filter bKeyed).length

def bUnkeyedCount (rows : List Row) : Nat :=
  (rows.filter (fun r => !bKeyed r)).length

/-- The normalized fields of the keyed rows of `rows` whose key is `k`, in
sheet order — the update history of the entity `k` during one upload. -/
def bFieldsFor (k : String) (rows : List Row) : List BFields :=
  (rows.map bRowFields).filter (fun f => f.sku != "" && f.sku == k)

/-- Folding an update history into the stored record of one key (`none` =
the key is not yet stored). -/
def mergeOne (o : Option BRec) (fs : List BFields) : Option BRec :=
  fs.foldl (fun acc f => some (upsertRec acc f)) o

/-- The isbn accumulator of `mergeOne`: the coalesce-keep-existing fold. -/
def isbnAcc (i : Option String) (fs : List BFields) : Option String :=
  fs.foldl (fun acc f =>
    match toNullable f.isbn with
    | some s => some s
    | none => acc) i

def initIsbn : Option BRec → Option String
  | none => none
  | some e => e.isbn

def initAuthor : Option BRec → String
  | none => ""
  | some e => e.author

def initQty : Option BRec → Int
  | none => 0
  | some e => e.quantity

def gQualCount (rows : List Row) : Nat := (rows.filter gQualifies).length

def gSkipCount (rows : List Row) : Nat :=
  (rows.filter (fun r => !gQualifies r)).length

/-! ### Helper lemmas about the Booksonix store -/

theorem dbLookup_nil (k : String) : dbLookup ([] : BDb) k = none := rfl

theorem dbLookup_cons (p : String × BRec) (ps : BDb) (k : String) :
    dbLookup (p :: ps) k = if p.1 = k then some p.2 else dbLookup ps k := by
  by_cases hp : p.1 = k
  · simp [dbLookup, List.find?_cons, hp]
  · simp [dbLookup, List.find?_cons, hp]

theorem dbLookup_append_same (db : BDb) (k : String) (r : BRec)
    (h : dbLookup db k = none) : dbLookup (db ++ [(k, r)]) k = some r := by
  induction db with
  | nil => simp [dbLookup]
  | cons p ps ih =>
    rw [dbLookup_cons] at h
    by_cases hp : p.1 = k
    · rw [if_pos hp] at h; exact absurd h (by simp)
    · rw [if_neg hp] at h
      rw [List.cons_append, dbLookup_cons, if_neg hp]
      exact ih h

theorem dbLookup_append_ne (db : BDb) (k k' : String) (r : BRec)
    (h : k' ≠ k) : dbLookup (db ++ [(k', r)]) k = dbLookup db k := by
  induction db with
  | nil => simp [dbLookup, List.find?, h]
  | cons p ps ih =>
    rw [List.cons_append, dbLookup_cons, dbLookup_cons, ih]

theorem dbLookup_map_upd (db : BDb) (k : String) (f : BFields) (k' : String) :
    dbLookup (db.map (fun p => if p.1 = k then (p.1, upsertRec (some p.2) f) else p)) k' =
      (dbLookup db k').map (fun e => if k' = k then upsertRec (some e) f else e) := by
  induction db with
  | nil => simp [dbLookup]
  | cons p ps ih =>
    rw [List.map_cons]
    by_cases hpk : p.1 = k
    · rw [if_pos hpk]
      by_cases hpk' : p.1 = k'
      · have hk' : k' = k := hpk'.symm.trans hpk
        simp [dbLookup_cons, hpk', hk']
      · simp [dbLookup_cons, hpk', ih]
    · rw [if_neg hpk]
      by_cases hpk' : p.1 = k'
      · have hne : ¬ k' = k := fun hh => hpk (hpk'.trans hh)
        simp [dbLookup_cons, hpk', hne]
      · simp [dbLookup_cons, hpk', ih]

theorem mergeOne_nil (o : Option BRec) : mergeOne o [] = o := rfl

theorem mergeOne_cons (o : Option BRec) (f : BFields) (fs : List BFields) :
    mergeOne o (f :: fs) = mergeOne (some (upsertRec o f)) fs := rfl

theorem mergeOne_append (o : Option BRec) (fs gs : List BFields) :
    mergeOne o (fs ++ gs) = mergeOne (mergeOne o fs) gs := by
  simp [mergeOne, List.foldl_append]

theorem bFieldsFor_cons (k : String) (r : Row) (rows : List Row) :
    bFieldsFor k (r :: rows) = bFieldsFor k [r] ++ bFieldsFor k rows := by
  simp only [bFieldsFor, List.map_cons, List.map_nil, List.filter_cons, List.filter_nil]
  split <;> simp

/-- Equation of `bStep` on a row without a natural key. -/
theorem bStep_eq_skip (db : BDb) (c : BCounts) (row : Row)
    (h : (bRowFields row).sku = "") :
    bStep (db, c) row =
      (db, { c with skippedNoSku := c.skippedNoSku + 1, errors := c.errors + 1 }) := by
  simp [bStep, h]

/-- Equation of `bStep` on a keyed row whose key is not yet stored. -/
theorem bStep_eq_insert (db : BDb) (c : BCounts) (row : Row)
    (h1 : ¬ (bRowFields row).sku = "")
    (h2 : dbLookup db (bRowFields row).sku = none) :
    bStep (db, c) row =
      (db ++ [((bRowFields row).sku, upsertRec none (bRowFields row))],
        { c with newRecords := c.newRecords + 1 }) := by
  simp [bStep, dbUpsert, h1, h2]

/-- Equation of `bStep` on a keyed row whose key is already stored. -/
theorem bStep_eq_update (db : BDb) (c : BCounts) (row : Row) (e : BRec)
    (h1 : ¬ (bRowFields row).sku = "")
    (h2 : dbLookup db (bRowFields row).sku = some e) :
    bStep (db, c) row =
      (db.map (fun p => if p.1 = (bRowFields row).sku
          then (p.1, upsertRec (some p.2) (bRowFields row)) else p),
        { c with duplicates := c.duplicates + 1 }) := by
  simp [bStep, dbUpsert, h1, h2]

/-- The store produced by one loop iteration does not depend on the counter
state. -/
theorem bStep_db_const (db : BDb) (c c' : BCounts) (row : Row) :
    (bStep (db, c) row).1 = (bStep (db, c') row).1 := by
  by_cases hsku : (bRowFields row).sku = ""
  · rw [bStep_eq_skip db c row hsku, bStep_eq_skip db c' row hsku]
  · cases hdb : dbLookup db (bRowFields row).sku with
    | none => rw [bStep_eq_insert db c row hsku hdb, bStep_eq_insert db c' row hsku hdb]
    | some e => rw [bStep_eq_update db c row e hsku hdb, bStep_eq_update db c' row e hsku hdb]

/-- Effect of one loop iteration on the stored record of an arbitrary key. -/
theorem bStep_lookup (db : BDb) (c : BCounts) (row : Row) (k : String) :
    dbLookup (bStep (db, c) row).1 k = mergeOne (dbLookup db k) (bFieldsFor k [row]) := by
  by_cases hsku : (bRowFields row).sku = ""
  · rw [bStep_eq_skip db c row hsku]
    simp [bFieldsFor, List.filter_cons, bne_iff_ne, hsku, mergeOne]
  · cases hdb : dbLookup db (bRowFields row).sku with
    | none =>
      rw [bStep_eq_insert db c row hsku hdb]
      by_cases hk : (bRowFields row).sku = k
      · subst hk
        rw [dbLookup_append_same db _ _ hdb]
        simp [bFieldsFor, List.filter_cons, bne_iff_ne, hsku, mergeOne, hdb]
      · rw [dbLookup_append_ne db k _ _ hk]
        simp [bFieldsFor, List.filter_cons, bne_iff_ne, beq_iff_eq, hsku, hk, mergeOne]
    | some e =>
      rw [bStep_eq_update db c row e hsku hdb, dbLookup_map_upd]
      by_cases hk : (bRowFields row).sku = k
      · subst hk
        rw [hdb]
        simp [bFieldsFor, List.filter_cons, bne_iff_ne, hsku, mergeOne]
      · have hne : ¬ k = (bRowFields row).sku := fun hh => hk hh.symm
        simp [bFieldsFor, List.filter_cons, bne_iff_ne, beq_iff_eq, hsku, hk, mergeOne, hne]

/-- Characterization of the store after the Booksonix loop: the stored
record of each key is its pre-upload record folded through the update
history of that key. -/
theorem bFold_lookup (rows : List Row) : ∀ (db : BDb) (c : BCounts) (k : String),
    dbLookup (rows.foldl bStep (db, c)).1 k =
      mergeOne (dbLookup db k) (bFieldsFor k rows) := by
  induction rows with
  | nil => intro db c k; simp [bFieldsFor, mergeOne]
  | cons r rs ih =>
    intro db c k
    rw [List.foldl_cons]
    have h1 : dbLookup (rs.foldl bStep (bStep (db, c) r)).1 k =
        mergeOne (dbLookup (bStep (db, c) r).1 k) (bFieldsFor k rs) :=
      ih (bStep (db, c) r).1 (bStep (db, c) r).2 k
    rw [h1, bStep_lookup, ← mergeOne_append, ← bFieldsFor_cons]

theorem isbnAcc_cons (i : Option String) (f : BFields) (fs : List BFields) :
    isbnAcc i (f :: fs) =
      isbnAcc (match toNullable f.isbn with | some s => some s | none => i) fs := rfl

/-- The isbn fold only consults its initial value when no history entry has
a non-empty isbn. -/
theorem isbnAcc_shift (fs : List BFields) : ∀ i : Option String,
    isbnAcc i fs = match isbnAcc none fs with | some s => some s | none => i := by
  induction fs with
  | nil => intro i; simp [isbnAcc]
  | cons f fs ih =>
    intro i
    rw [isbnAcc_cons, isbnAcc_cons]
    rw [ih, ih (match toNullable f.isbn with | some s => some s | none => none)]
    cases hA : isbnAcc none fs with
    | some s => simp
    | none => cases h : toNullable f.isbn <;> simp [h]

theorem isbnAcc_idem (i : Option String) (fs : List BFields) :
    isbnAcc (isbnAcc i fs) fs = isbnAcc i fs := by
  rw [isbnAcc_shift fs (isbnAcc i fs)]
  cases hA : isbnAcc none fs with
  | some s => rw [isbnAcc_shift fs i, hA]
  | none => simp

theorem upsertRec_isbn (o : Option BRec) (f : BFields) :
    (upsertRec o f).isbn =
      (match toNullable f.isbn with | some s => some s | none => initIsbn o) := by
  cases o <;> cases h : toNullable f.isbn <;> simp [upsertRec, initIsbn, h]

theorem upsertRec_author (o : Option BRec) (f : BFields) :
    (upsertRec o f).author = initAuthor o := by
  cases o <;> rfl

theorem upsertRec_quantity (o : Option BRec) (f : BFields) :
    (upsertRec o f).quantity = initQty o := by
  cases o <;> rfl

theorem upsertRec_title (o : Option BRec) (f : BFields) :
    (upsertRec o f).title = f.title := by
  cases o <;> rfl

theorem upsertRec_publisher (o : Option BRec) (f : BFields) :
    (upsertRec o f).publisher = f.publisher := by
  cases o <;> rfl

theorem upsertRec_price (o : Option BRec) (f : BFields) :
    (upsertRec o f).price = f.price := by
  cases o <;> rfl

/-- Closed form of the per-key fold over a non-empty history: isbn via the
coalesce fold, title/publisher/price from the last history entry, author
and quantity from the initial record. -/
theorem mergeOne_char (fs : List BFields) : ∀ (o : Option BRec) (hne : fs ≠ []),
    mergeOne o fs = some ⟨isbnAcc (initIsbn o) fs, (fs.getLast hne).title,
      initAuthor o, (fs.getLast hne).publisher, (fs.getLast hne).price, initQty o⟩ := by
  induction fs with
  | nil => intro o hne; exact absurd rfl hne
  | cons f fs ih =>
    intro o hne
    cases fs with
    | nil =>
      show some (upsertRec o f) = _
      cases o with
      | none =>
        by_cases h : f.isbn = "" <;>
          simp [upsertRec, isbnAcc, initIsbn, initAuthor, initQty, toNullable, h]
      | some e =>
        by_cases h : f.isbn = "" <;>
          simp [upsertRec, isbnAcc, initIsbn, initAuthor, initQty, toNullable, h]
    | cons f' fs' =>
      rw [mergeOne_cons, ih (some (upsertRec o f)) (List.cons_ne_nil f' fs')]
      rw [Option.some.injEq, BRec.mk.injEq]
      refine ⟨?_, ?_, ?_, ?_, ?_, ?_⟩
      · have h1 : initIsbn (some (upsertRec o f)) = (upsertRec o f).isbn := rfl
        rw [h1, upsertRec_isbn o f]
        exact (isbnAcc_cons (initIsbn o) f (f' :: fs')).symm
      · rw [List.getLast_cons (List.cons_ne_nil f' fs')]
      · exact upsertRec_author o f
      · rw [List.getLast_cons (List.cons_ne_nil f' fs')]
      · rw [List.getLast_cons (List.cons_ne_nil f' fs')]
      · exact upsertRec_quantity o f

theorem mergeOne_isSome_of_some (fs : List BFields) : ∀ e : BRec,
    (mergeOne (some e) fs).isSome := by
  induction fs with
  | nil => intro e; rfl
  | cons f fs ih => intro e; rw [mergeOne_cons]; exact ih _

theorem mergeOne_isSome (o : Option BRec) (fs : List BFields) (h : fs ≠ []) :
    (mergeOne o fs).isSome := by
  cases fs with
  | nil => exact absurd rfl h
  | cons f fs => rw [mergeOne_cons]; exact mergeOne_isSome_of_some fs _

theorem mergeOne_isSome_mono (o : Option BRec) (fs : List BFields)
    (h : o.isSome) : (mergeOne o fs).isSome := by
  cases fs with
  | nil => exact h
  | cons f fs => rw [mergeOne_cons]; exact mergeOne_isSome_of_some fs _

/-- Re-folding the same update history is a no-op on the stored record. -/
theorem mergeOne_idem (o : Option BRec) (fs : List BFields) :
    mergeOne (mergeOne o fs) fs = mergeOne o fs := by
  cases fs with
  | nil => rfl
  | cons f fs' =>
    have hne : f :: fs' ≠ [] := List.cons_ne_nil f fs'
    rw [mergeOne_char (f :: fs') o hne]
    rw [mergeOne_char (f :: fs') _ hne]
    rw [Option.some.injEq, BRec.mk.injEq]
    refine ⟨?_, rfl, rfl, rfl, rfl, rfl⟩
    show isbnAcc (isbnAcc (initIsbn o) (f :: fs')) (f :: fs') = _
    exact isbnAcc_idem (initIsbn o) (f :: fs')

theorem bUnkeyedCount_cons (r : Row) (rows : List Row) :
    bUnkeyedCount (r :: rows) =
      (if (bRowFields r).sku = "" then 1 else 0) + bUnkeyedCount rows := by
  by_cases h : (bRowFields r).sku = "" <;>
    simp [bUnkeyedCount, List.filter_cons, bKeyed, bne_iff_ne, h, Nat.add_comm]

theorem bKeyedCount_cons (r : Row) (rows : List Row) :
    bKeyedCount (r :: rows) =
      (if (bRowFields r).sku = "" then 0 else 1) + bKeyedCount rows := by
  by_cases h : (bRowFields r).sku = "" <;>
    simp [bKeyedCount, List.filter_cons, bKeyed, bne_iff_ne, h, Nat.add_comm]

/-- Accounting of one Booksonix upload: rows without a key are counted in
both `skippedNoSku` and `errors`, keyed rows split between `newRecords`
and `duplicates`. -/
theorem bFold_counts (rows : List Row) : ∀ (db : BDb) (c : BCounts),
    (rows.foldl bStep (db, c)).2.skippedNoSku = c.skippedNoSku + bUnkeyedCount rows ∧
    (rows.foldl bStep (db, c)).2.errors = c.errors + bUnkeyedCount rows ∧
    (rows.foldl bStep (db, c)).2.newRecords + (rows.foldl bStep (db, c)).2.duplicates
      = c.newRecords + c.duplicates + bKeyedCount rows := by
  induction rows with
  | nil => intro db c; simp [bKeyedCount, bUnkeyedCount]
  | cons r rs ih =>
    intro db c
    rw [List.foldl_cons]
    have hU := bUnkeyedCount_cons r rs
    have hK := bKeyedCount_cons r rs
    by_cases hsku : (bRowFields r).sku = ""
    · rw [bStep_eq_skip db c r hsku]
      obtain ⟨h1, h2, h3⟩ :=
        ih db { c with skippedNoSku := c.skippedNoSku + 1, errors := c.errors + 1 }
      rw [if_pos hsku] at hU hK
      refine ⟨?_, ?_, ?_⟩ <;> simp [h1, h2, h3, hU, hK] <;> omega
    · cases hdb : dbLookup db (bRowFields r).sku with
      | none =>
        rw [bStep_eq_insert db c r hsku hdb]
        obtain ⟨h1, h2, h3⟩ :=
          ih (db ++ [((bRowFields r).sku, upsertRec none (bRowFields r))])
            { c with newRecords := c.newRecords + 1 }
        rw [if_neg hsku] at hU hK
        refine ⟨?_, ?_, ?_⟩ <;> simp [h1, h2, h3, hU, hK] <;> omega
      | some e =>
        rw [bStep_eq_update db c r e hsku hdb]
        obtain ⟨h1, h2, h3⟩ :=
          ih (db.map (fun p => if p.1 = (bRowFields r).sku
              then (p.1, upsertRec (some p.2) (bRowFields r)) else p))
            { c with duplicates := c.duplicates + 1 }
        rw [if_neg hsku] at hU hK
        refine ⟨?_, ?_, ?_⟩ <;> simp [h1, h2, h3, hU, hK] <;> omega

theorem bStep_lookup_isSome (db : BDb) (c : BCounts) (row : Row) (k : String)
    (h : (dbLookup db k).isSome) : (dbLookup (bStep (db, c) row).1 k).isSome := by
  rw [bStep_lookup]
  exact mergeOne_isSome_mono _ _ h

/-- Accounting of a Booksonix upload whose every keyed row hits an already
stored key: nothing is counted new, every keyed row is a duplicate. -/
theorem bFold_counts_present (rows : List Row) : ∀ (db : BDb) (c : BCounts),
    (∀ r ∈ rows, ¬ (bRowFields r).sku = "" → (dbLookup db (bRowFields r).sku).isSome) →
    (rows.foldl bStep (db, c)).2 =
      ⟨c.newRecords, c.duplicates + bKeyedCount rows,
       c.errors + bUnkeyedCount rows, c.skippedNoSku + bUnkeyedCount rows⟩ := by
  induction rows with
  | nil => intro db c _; simp [bKeyedCount, bUnkeyedCount]
  | cons r rs ih =>
    intro db c h
    rw [List.foldl_cons]
    have hpres' : ∀ r' ∈ rs, ¬ (bRowFields r').sku = "" →
        (dbLookup (bStep (db, c) r).1 (bRowFields r').sku).isSome :=
      fun r' hr' hk => bStep_lookup_isSome db c r _ (h r' (List.mem_cons_of_mem r hr') hk)
    have hih : (rs.foldl bStep (bStep (db, c) r)).2 =
        ⟨(bStep (db, c) r).2.newRecords, (bStep (db, c) r).2.duplicates + bKeyedCount rs,
         (bStep (db, c) r).2.errors + bUnkeyedCount rs,
         (bStep (db, c) r).2.skippedNoSku + bUnkeyedCount rs⟩ :=
      ih (bStep (db, c) r).1 (bStep (db, c) r).2 hpres'
    rw [hih]
    have hU := bUnkeyedCount_cons r rs
    have hK := bKeyedCount_cons r rs
    by_cases hsku : (bRowFields r).sku = ""
    · rw [bStep_eq_skip db c r hsku]
      rw [if_pos hsku] at hU hK
      simp [hU, hK, BCounts.mk.injEq]
      omega
    · obtain ⟨e, hdb⟩ := Option.isSome_iff_exists.mp (h r (List.mem_cons_self r rs) hsku)
      rw [bStep_eq_update db c r e hsku hdb]
      rw [if_neg hsku] at hU hK
      simp [hU, hK, BCounts.mk.injEq]
      omega

/-- The store after the loop does not depend on the incoming counters. -/
theorem bFold_db_const (rows : List Row) : ∀ (db : BDb) (c c' : BCounts),
    (rows.foldl bStep (db, c)).1 = (rows.foldl bStep (db, c')).1 := by
  induction rows with
  | nil => intro db c c'; rfl
  | cons r rs ih =>
    intro db c c'
    rw [List.foldl_cons, List.foldl_cons]
    have h1 : (rs.foldl bStep (bStep (db, c) r)).1 =
        (rs.foldl bStep ((bStep (db, c) r).1, (bStep (db, c') r).2)).1 :=
      ih (bStep (db, c) r).1 (bStep (db, c) r).2 (bStep (db, c') r).2
    rw [h1, bStep_db_const db c c' r]

/-- Rows without a natural key leave no trace in the store: the final store
equals the one obtained from the keyed rows alone. -/
theorem bFold_db_filter (rows : List Row) : ∀ (db : BDb) (c c' : BCounts),
    (rows.foldl bStep (db, c)).1 = ((rows.filter bKeyed).foldl bStep (db, c')).1 := by
  induction rows with
  | nil => intro db c c'; rfl
  | cons r rs ih =>
    intro db c c'
    rw [List.foldl_cons]
    by_cases hsku : (bRowFields r).sku = ""
    · have hfilter : (r :: rs).filter bKeyed = rs.filter bKeyed := by
        simp [List.filter_cons, bKeyed, bne_iff_ne, hsku]
      rw [hfilter, bStep_eq_skip db c r hsku]
      exact ih db _ c'
    · have hfilter : (r :: rs).filter bKeyed = r :: rs.filter bKeyed := by
        simp [List.filter_cons, bKeyed, bne_iff_ne, hsku]
      rw [hfilter, List.foldl_cons]
      have h1 : (rs.foldl bStep (bStep (db, c) r)).1 =
          ((rs.filter bKeyed).foldl bStep ((bStep (db, c) r).1, c')).1 :=
        ih (bStep (db, c) r).1 (bStep (db, c) r).2 c'
      have h2 : ((rs.filter bKeyed).foldl bStep ((bStep (db, c') r).1, c')).1 =
          ((rs.filter bKeyed).foldl bStep (bStep (db, c') r)).1 :=
        bFold_db_const (rs.filter bKeyed) (bStep (db, c') r).1 c' (bStep (db, c') r).2
      rw [h1, bStep_db_const db c c' r, h2]

/-! ### Helper lemmas about the Gazelle store -/

theorem gInsert_ok (db : GDb) (r : GRec) : gInsert db r = .ok (db ++ [r]) := by
  simp [gInsert, gazelleConstraints]

theorem gStep_eq_skip (db : GDb) (c : GCounts) (row : Row)
    (h : gQualifies row = false) :
    gStep (db, c) row = (db, { c with skippedRows := c.skippedRows + 1 }) := by
  have h' : (gRowRec row).order_ref = "" ∨ (gRowRec row).customer_name = "" := by
    by_cases h1 : (gRowRec row).order_ref = ""
    · exact Or.inl h1
    · refine Or.inr ?_
      by_cases h2 : (gRowRec row).customer_name = ""
      · exact h2
      · rw [gQualifies] at h
        simp [h1, h2] at h
  rcases h' with h1 | h1 <;> simp [gStep, h1]

theorem gStep_eq_insert (db : GDb) (c : GCounts) (row : Row)
    (h : gQualifies row = true) :
    gStep (db, c) row = (db ++ [gRowRec row], { c with newRecords := c.newRecords + 1 }) := by
  have h1 : ¬ (gRowRec row).order_ref = "" := by
    intro hh; rw [gQualifies] at h; simp [hh] at h
  have h2 : ¬ (gRowRec row).customer_name = "" := by
    intro hh; rw [gQualifies] at h; simp [hh] at h
  simp [gStep, h1, h2, gInsert_ok]

/-- Closed form of the Gazelle loop: the store is appended with the record
of every qualifying row, nothing is ever counted updated or errored, and
non-qualifying rows are skipped. -/
theorem gFold_char (rows : List Row) : ∀ (db : GDb) (c : GCounts),
    rows.foldl gStep (db, c) =
      (db ++ (rows.filter gQualifies).map gRowRec,
       ⟨c.newRecords + gQualCount rows, c.updatedRecords, c.errors,
        c.skippedRows + gSkipCount rows⟩) := by
  induction rows with
  | nil => intro db c; simp [gQualCount, gSkipCount]
  | cons r rs ih =>
    intro db c
    rw [List.foldl_cons]
    cases hq : gQualifies r with
    | false =>
      rw [gStep_eq_skip db c r hq, ih db _]
      simp [List.filter_cons, hq, gQualCount, gSkipCount, GCounts.mk.injEq]
      omega
    | true =>
      rw [gStep_eq_insert db c r hq, ih _ _]
      simp [List.filter_cons, hq, gQualCount, gSkipCount, GCounts.mk.injEq,
        Prod.mk.injEq]
      omega

/-! ### Helper lemmas for the numeric normalizers -/

theorem mem_dropWhile {α : Type} (p : α → Bool) (l : List α) (a : α)
    (h : a ∈ l.dropWhile p) : a ∈ l := by
  induction l with
  | nil => simpa using h
  | cons x xs ih =>
    by_cases hx : p x
    · rw [List.dropWhile_cons_of_pos hx] at h
      exact List.mem_cons_of_mem x (ih h)
    · rw [List.dropWhile_cons_of_neg hx] at h
      exact h

theorem mem_jsTrim (s : String) (c : Char) (h : c ∈ (jsTrim s).toList) :
    c ∈ s.toList := by
  have h1 : c ∈ ((s.toList.dropWhile isWS).reverse.dropWhile isWS).reverse := h
  rw [List.mem_reverse] at h1
  have h2 := mem_dropWhile isWS _ c h1
  rw [List.mem_reverse] at h2
  exact mem_dropWhile isWS _ c h2

theorem mem_stripChars (p : Char → Bool) (s : String) (c : Char)
    (h : c ∈ (stripChars p s).toList) : ¬ p c = true := by
  have h1 : c ∈ s.toList.filter (fun c => !p c) := h
  have h2 := (List.mem_filter.mp h1).2
  simpa using h2

/-- Every character surviving the Booksonix price cleaning is a digit or a
dot; in particular no minus sign survives. -/
theorem bCleanPrice_no_minus (s : String) :
    ∀ c ∈ (bCleanPrice s).toList, ¬ c = '-' := by
  intro c hc hEq
  have h1 := mem_jsTrim _ c hc
  have h2 := mem_stripChars (fun c => !(c.isDigit || c = '.')) _ c h1
  subst hEq
  simp at h2

theorem jsParseFloatMag_nonneg (l1 : List Char) (m : Rat)
    (h : jsParseFloatMag l1 = some m) : 0 ≤ m := by
  rw [jsParseFloatMag] at h
  split at h <;> split at h <;>
    first
      | exact Option.noConfusion h
      | · rw [Option.some.injEq] at h
          rw [← h, Rat.mkRat_eq_div]
          positivity

theorem mag_map_id_nonneg (l1 : List Char) :
    0 ≤ ((jsParseFloatMag l1).map (fun m => m)).getD 0 := by
  cases hm : jsParseFloatMag l1 with
  | none => simp
  | some m => simpa using jsParseFloatMag_nonneg l1 m hm

theorem jsParseFloat_getD_nonneg (s : String)
    (h : ¬ (s.toList.dropWhile isWS).head? = some '-') :
    0 ≤ (jsParseFloat s).getD 0 := by
  simp only [jsParseFloat, if_neg h]
  exact mag_map_id_nonneg _

theorem head_dropWhile_no_minus (s : String)
    (hno : ∀ c ∈ s.toList, ¬ c = '-') :
    ¬ (s.toList.dropWhile isWS).head? = some '-' := by
  intro hc
  have hmem : '-' ∈ s.toList.dropWhile isWS :=
    List.mem_of_mem_head? (by rw [hc]; rfl)
  exact hno '-' (mem_dropWhile isWS _ '-' hmem) rfl

/-- The Booksonix price normalizer can only produce non-negative values. -/
theorem bPriceOf_nonneg (s : String) : 0 ≤ bPriceOf s := by
  rw [bPriceOf]
  by_cases h : s = ""
  · simp [h]
  · rw [if_neg h]
    exact jsParseFloat_getD_nonneg _
      (head_dropWhile_no_minus _ (bCleanPrice_no_minus s))

/-! ### The claims -/

/-- C1: the claim says every `DD/MM/YYYY` string is decoded day-first by
explicit field extraction and never by locale-ambiguous generic parsing,
with `"01/02/2025"` mapping to February 1 2025.  The code tries the
generic `new Date(string)` parse first (src/server.js:560), which succeeds
month-first on such strings, so `"01/02/2025"` decodes to January 2 2025
and the explicit day-first branch is unreachable for it — contradicting
the code's own UK-format comment.  This theorem evaluates the embedded
code at the failing input. -/
theorem claim_C1_dayfirst_eval :
    parseExcelDate (.str "01/02/2025") = some ⟨2025, 1, 2⟩ ∧
    parseExcelDate (.str "01/02/2025") ≠ some ⟨2025, 2, 1⟩ := by decide

/-- C2 counterexample: the claim says that for every field an empty
incoming value keeps the stored non-empty value.  Merging a row with the
same sku and an empty title into a store holding title "Old Title"
overwrites it with the empty string (and price 5 with 0). -/
theorem claim_C2_counterexample :
    dbLookup (bRun [("A", ⟨some "111", "Old Title", "", "Pub", 5, 0⟩)]
        [[("SKU", "A")]]).1 "A" = some ⟨some "111", "", "", "", 0, 0⟩ ∧
    ("" : String) ≠ "Old Title" := by decide

/-- C2 (amended): on a sku conflict, only isbn follows
coalesce-keep-existing (an empty incoming isbn keeps the stored one, a
non-empty one overwrites); title, publisher and price are always
overwritten by the incoming normalized value, even when empty or zero;
author and quantity are never modified by the conflict update. -/
theorem claim_C2_merge_policy (db : BDb) (sku : String) (f : BFields) (e : BRec)
    (h : dbLookup db sku = some e) :
    (dbUpsert db sku f).2 = false ∧
    dbLookup (dbUpsert db sku f).1 sku =
      some ⟨if f.isbn = "" then e.isbn else some f.isbn,
        f.title, e.author, f.publisher, f.price, e.quantity⟩ := by
  have hdb : dbUpsert db sku f =
      (db.map (fun p => if p.1 = sku then (p.1, upsertRec (some p.2) f) else p), false) := by
    simp [dbUpsert, h]
  refine ⟨by rw [hdb], ?_⟩
  rw [hdb]
  show dbLookup (db.map _) sku = _
  rw [dbLookup_map_upd, h]
  by_cases hi : f.isbn = "" <;> simp [upsertRec, toNullable, hi]

/-- Witness for C2: the amended merge policy at a concrete store and row. -/
theorem claim_C2_merge_policy_witness :
    (dbUpsert [("A", ⟨some "111", "Old", "Auth", "Pub", 5, 9⟩)] "A"
        ⟨"A", "", "", "", 0⟩).2 = false ∧
    dbLookup (dbUpsert [("A", ⟨some "111", "Old", "Auth", "Pub", 5, 9⟩)] "A"
        ⟨"A", "", "", "", 0⟩).1 "A" =
      some ⟨if ("" : String) = "" then some "111" else some "", "", "Auth", "", 0, 9⟩ :=
  claim_C2_merge_policy [("A", ⟨some "111", "Old", "Auth", "Pub", 5, 9⟩)] "A"
    ⟨"A", "", "", "", 0⟩ ⟨some "111", "Old", "Auth", "Pub", 5, 9⟩ (by decide)

/-- C3 counterexample: the claim says every row of the second ingestion of
an identical file is counted updated/duplicate.  A one-row file whose row
has no sku is skipped again on re-ingestion: its duplicate count is 0,
not 1. -/
theorem claim_C3_counterexample :
    (bRun (bRun [] [[("Title", "T")]]).1 [[("Title", "T")]]).2.duplicates = 0 ∧
    (bRun (bRun [] [[("Title", "T")]]).1 [[("Title", "T")]]).2.newRecords = 0 ∧
    ([[("Title", "T")]] : List Row).length = 1 := by decide

/-- C3 (amended): re-ingesting an identical file in merge-on-conflict mode
produces zero new entities, every key-bearing row of the second ingestion
is counted updated/duplicate (rows without a key are skipped again, not
counted updated), and the stored field values of every entity after the
second ingestion equal those after the first. -/
theorem claim_C3_reingest_idempotent (db : BDb) (rows : List Row) :
    (∀ k, dbLookup (bRun (bRun db rows).1 rows).1 k = dbLookup (bRun db rows).1 k) ∧
    (bRun (bRun db rows).1 rows).2.newRecords = 0 ∧
    (bRun (bRun db rows).1 rows).2.duplicates = bKeyedCount rows ∧
    (bRun (bRun db rows).1 rows).2.skippedNoSku = bUnkeyedCount rows := by
  have hpres : ∀ r ∈ rows, ¬ (bRowFields r).sku = "" →
      (dbLookup (bRun db rows).1 (bRowFields r).sku).isSome := by
    intro r hr hk
    have hmem : bRowFields r ∈ bFieldsFor (bRowFields r).sku rows := by
      refine List.mem_filter.mpr ⟨List.mem_map_of_mem bRowFields hr, ?_⟩
      simp [bne_iff_ne, hk]
    have hLk : dbLookup (bRun db rows).1 (bRowFields r).sku =
        mergeOne (dbLookup db (bRowFields r).sku) (bFieldsFor (bRowFields r).sku rows) :=
      bFold_lookup rows db ⟨0, 0, 0, 0⟩ (bRowFields r).sku
    rw [hLk]
    exact mergeOne_isSome _ _ (List.ne_nil_of_mem hmem)
  have hcounts : (bRun (bRun db rows).1 rows).2 =
      ⟨0, 0 + bKeyedCount rows, 0 + bUnkeyedCount rows, 0 + bUnkeyedCount rows⟩ :=
    bFold_counts_present rows (bRun db rows).1 ⟨0, 0, 0, 0⟩ hpres
  refine ⟨?_, ?_, ?_, ?_⟩
  · intro k
    have hA : dbLookup (bRun db rows).1 k = mergeOne (dbLookup db k) (bFieldsFor k rows) :=
      bFold_lookup rows db ⟨0, 0, 0, 0⟩ k
    have hB : dbLookup (bRun (bRun db rows).1 rows).1 k =
        mergeOne (dbLookup (bRun db rows).1 k) (bFieldsFor k rows) :=
      bFold_lookup rows (bRun db rows).1 ⟨0, 0, 0, 0⟩ k
    rw [hB, hA, mergeOne_idem, ← hA]
  · rw [hcounts]
  · rw [hcounts]; simp
  · rw [hcounts]; simp

/-- C4 counterexample: the claim says no-key rejections are counted
separately from write errors in the upload summary.  In the Booksonix
upload a single row without a sku — with no write error anywhere — yields
a response whose `errors` field is 1 (the response exposes no skipped
count), so the no-key rejection is folded into the reported error count. -/
theorem claim_C4_counterexample :
    bUploadResp [] [[("Title", "T")]] = ⟨0, 0, 1⟩ := by decide

/-- C4 (amended): a row whose natural key is empty after normalization is
never persisted and never counted new or updated.  The Gazelle upload
counts it only in `skippedRows`, separate from `errors`; the Booksonix
upload counts it in `skippedNoSku` but additionally increments `errors`,
and its response exposes only the error total. -/
theorem claim_C4_rejection_accounting (db : BDb) (gdb : GDb) (rows : List Row) :
    (bRun db rows).2.skippedNoSku = bUnkeyedCount rows ∧
    (bRun db rows).2.errors = bUnkeyedCount rows ∧
    (bRun db rows).2.newRecords + (bRun db rows).2.duplicates = bKeyedCount rows ∧
    (bRun db rows).1 = (bRun db (rows.filter bKeyed)).1 ∧
    (gRun gdb rows).2.skippedRows = gSkipCount rows ∧
    (gRun gdb rows).2.errors = 0 ∧
    (gRun gdb rows).2.newRecords = gQualCount rows ∧
    (gRun gdb rows).1 = gdb ++ (rows.filter gQualifies).map gRowRec := by
  obtain ⟨h1, h2, h3⟩ := bFold_counts rows db ⟨0, 0, 0, 0⟩
  have h4 : (bRun db rows).1 = (bRun db (rows.filter bKeyed)).1 :=
    bFold_db_filter rows db ⟨0, 0, 0, 0⟩ ⟨0, 0, 0, 0⟩
  have h5 : gRun gdb rows = (gdb ++ (rows.filter gQualifies).map gRowRec,
      ⟨0 + gQualCount rows, 0, 0, 0 + gSkipCount rows⟩) :=
    gFold_char rows gdb ⟨0, 0, 0, 0⟩
  refine ⟨by simpa [bRun] using h1, by simpa [bRun] using h2,
    by simpa [bRun] using h3, h4, ?_, ?_, ?_, ?_⟩
  · rw [h5]; simp
  · rw [h5]
  · rw [h5]; simp
  · rw [h5]

/-- C5: a numeric spreadsheet serial (non-zero, in the representable JS
date range) decodes to exactly the calendar date `(serial − 25569)` days
after 1970-01-01, at 86400 seconds per day. -/
theorem claim_C5_serial_epoch_offset (n : Int) (h0 : ¬ n = 0)
    (hr : ((n - 25569) * 86400 * 1000).natAbs ≤ jsMaxMs) :
    parseExcelDate (.num n) = some (civilFromDays (n - 25569)) := by
  simp only [parseExcelDate, if_neg h0, if_pos hr]
  congr 2
  have h : (n - 25569) * 86400 * 1000 = (n - 25569) * 86400000 := by ring
  rw [h, Int.mul_fdiv_cancel _ (by norm_num)]

/-- Witness for C5: serial 45000 decodes via the epoch offset and the
resulting calendar date is 2023-03-15. -/
theorem claim_C5_serial_epoch_offset_witness :
    parseExcelDate (.num 45000) = some (civilFromDays (45000 - 25569)) ∧
    civilFromDays (45000 - 25569) = ⟨2023, 3, 15⟩ :=
  ⟨claim_C5_serial_epoch_offset 45000 (by decide) (by decide), by decide⟩

/-- C6: ingesting the 3-row sheet
`[{sku:"ABC-123", price:"£5.00"}, {sku:"", price:"£1.00"},
{sku:"ABC-123", price:"£7.00"}]` into an empty store yields 1 new entity
(hyphen-stripped key "ABC123", price 5.00 after the first row), 1 skipped
row, 1 updated entity, and a final stored price of 7.00 on the single
stored entity. -/
theorem claim_C6_scenario :
    (bRun [] [[("sku", "ABC-123"), ("Price", "£5.00")],
              [("sku", ""), ("Price", "£1.00")],
              [("sku", "ABC-123"), ("Price", "£7.00")]]).2 = ⟨1, 1, 1, 1⟩ ∧
    dbLookup (bRun [] [[("sku", "ABC-123"), ("Price", "£5.00")]]).1 "ABC123" =
      some ⟨none, "", "", "", 5, 0⟩ ∧
    dbLookup (bRun [] [[("sku", "ABC-123"), ("Price", "£5.00")],
              [("sku", ""), ("Price", "£1.00")],
              [("sku", "ABC-123"), ("Price", "£7.00")]]).1 "ABC123" =
      some ⟨none, "", "", "", 7, 0⟩ ∧
    (bRun [] [[("sku", "ABC-123"), ("Price", "£5.00")],
              [("sku", ""), ("Price", "£1.00")],
              [("sku", "ABC-123"), ("Price", "£7.00")]]).1.length = 1 := by decide

/-- C7 counterexample: the claim says no input string can produce a
negative stored currency or percentage value.  The Gazelle price cleaning
strips only currency glyphs and commas, so a leading minus survives and
the row is stored with unit_price −5. -/
theorem claim_C7_counterexample :
    ((gRun [] [[("Order Ref", "X"), ("Customer Name", "C"),
        ("Unit Price", "-5.00")]]).1.head?.map GRec.unit_price) = some (-5) ∧
    ((-5 : Rat) < 0) := by decide

/-- C7 (amended): the Booksonix price normalizer is non-negative for every
input (its cleaning deletes every character other than digits and dots,
minus signs included), but the Gazelle unit-price and discount normalizers
preserve a leading minus sign and can produce negative values. -/
theorem claim_C7_sign_policy :
    (∀ s : String, 0 ≤ bPriceOf s) ∧
    gUnitPriceOf "-5.00" = -5 ∧ gDiscountOf "-10%" = -10 :=
  ⟨bPriceOf_nonneg, by decide, by decide⟩

/-- C8 counterexample: the claim says the resolver returns the value of
the first alias that is present in the row.  With "SKU" present but empty
and "sku" mapped to "X", the chain returns "X", not the first present
alias's value "". -/
theorem claim_C8_counterexample :
    resolveAliases [("SKU", ""), ("sku", "X")] bSkuAliases = "X" ∧
    rowGet [("SKU", ""), ("sku", "X")] "SKU" = some "" ∧
    ("X" : String) ≠ "" := by decide

/-- C8 (amended): the alias chain tries aliases in declared order with
case-sensitive exact lookup and returns the first value that is present
AND non-empty (JS-truthy); an alias present with an empty value is skipped
like an absent one; the chain is total and returns the empty-string
default when no alias yields a non-empty value. -/
theorem claim_C8_resolver_first_truthy (row : Row) (aliases : List String) :
    resolveAliases row aliases =
      (((aliases.filterMap (fun a => rowGet row a)).filter
        (fun v => ¬ v = "")).head?).getD "" := by
  induction aliases with
  | nil => rfl
  | cons a rest ih =>
    cases h : rowGet row a with
    | none => simp [resolveAliases, h, ih]
    | some v =>
      by_cases hv : v = ""
      · simp [resolveAliases, h, hv, ih]
      · simp [resolveAliases, h, hv]

/-- C9: for every upload request that received a file, the transient
uploaded file is gone when the request completes, on the success path and
on the pipeline-fatal path alike, in both upload routes. -/
theorem claim_C9_file_cleanup (read : Except String (List Row)) (db : BDb) (gdb : GDb) :
    (bHandler read db).2 = false ∧ (gHandler read gdb).2 = false := by
  cases read <;> exact ⟨rfl, rfl⟩

/-- C10: with the `gazelle_sales` table created without any uniqueness
constraint (and the legacy composite constraint dropped at startup), the
duplicate branch of the Gazelle upload is unreachable: the duplicate count
is always 0, every qualifying row is inserted as a new record, and
re-ingesting the same file doubles the stored rows. -/
theorem claim_C10_append_only (rows : List Row) :
    (gRun [] rows).2.updatedRecords = 0 ∧
    (gRun (gRun [] rows).1 rows).2.updatedRecords = 0 ∧
    (gRun [] rows).2.newRecords = gQualCount rows ∧
    (gRun (gRun [] rows).1 rows).2.newRecords = gQualCount rows ∧
    (gRun [] rows).1.length = gQualCount rows ∧
    (gRun (gRun [] rows).1 rows).1.length = 2 * gQualCount rows := by
  have h1 : gRun [] rows = ([] ++ (rows.filter gQualifies).map gRowRec,
      ⟨0 + gQualCount rows, 0, 0, 0 + gSkipCount rows⟩) :=
    gFold_char rows [] ⟨0, 0, 0, 0⟩
  have h2 : gRun (gRun [] rows).1 rows =
      ((gRun [] rows).1 ++ (rows.filter gQualifies).map gRowRec,
      ⟨0 + gQualCount rows, 0, 0, 0 + gSkipCount rows⟩) :=
    gFold_char rows (gRun [] rows).1 ⟨0, 0, 0, 0⟩
  refine ⟨?_, ?_, ?_, ?_, ?_, ?_⟩
  · rw [h1]
  · rw [h2]
  · rw [h1]; simp
  · rw [h2]; simp
  · rw [h1]; simp [gQualCount]
  · rw [h2, h1]
    simp [gQualCount, List.length_append, List.length_map]
    omega

end AntenneDB
